import Mathlib

/-
Verification of the Billa price-scraper pipeline (src/billa_scraper_1.py)
against its specification.

The embedding models pandas cell values as an inductive `Value`, a DataFrame
row as an association list from column name to `Value`, and each relevant
function of the source file as a Lean function over these types:

  * `find_differences`  (source lines 174-230): the Diff Engine;
  * `scrape_all_pages`  (source lines 55-108): the Paginated Fetcher,
    modeled with an explicit environment of HTTP outcomes and a fuel
    parameter so that (non-)termination of the while-loop can be stated;
  * `load_combined_dataframe` (lines 111-124) and the date-parse /
    latest-per-sku / diff / append steps of `main` (lines 354-388).

Machine floats of the source are modeled as rationals; list-valued cells
(e.g. price_regular_tags, a list of strings in the feed) are modeled as
lists of strings.
-/

namespace Billa

/-- A pandas cell value as the scraper sees it.  `nan` models all values for
which pd.isna is true (NaN, None, NaT); `num` models Python ints/floats as
rationals; `listV` models list-valued cells (lists of strings in this feed);
`dt` models a pandas Timestamp with year/month/day/hour/minute/second. -/
inductive Value where
  | nan   : Value
  | str   : String → Value
  | num   : ℚ → Value
  | bool  : Bool → Value
  | listV : List String → Value
  | dt    : ℕ → ℕ → ℕ → ℕ → ℕ → ℕ → Value
deriving DecidableEq

/-- Python repr of a string (single-quoted; \x27 is the quote character). -/
def pyQuote (s : String) : String := "\x27" ++ s ++ "\x27"

/-- Python str() of a list of strings, e.g. str(["a","b"]).  Models the
`str(hist_value)` conversion at source lines 194-202. -/
def pyStrList (l : List String) : String :=
  "[" ++ String.intercalate ", " (l.map pyQuote) ++ "]"

/-- Python == between two cell values.  Cross-type equalities of Python are
reflected: True == 1 and False == 0 hold; a float NaN compares unequal to
everything, including itself (`nan`, which also stands for None, only ever
reaches this function through the sku-matching code path, where pandas NaN
semantics apply; in the field-comparison path absent values are removed
before comparison, see `normCompare`). -/
def valEq : Value → Value → Bool
  | Value.str a, Value.str b => a = b
  | Value.num a, Value.num b => a = b
  | Value.num a, Value.bool b => a = (if b then 1 else 0)
  | Value.bool a, Value.num b => (if a then (1 : ℚ) else 0) = b
  | Value.bool a, Value.bool b => a = b
  | Value.listV a, Value.listV b => a = b
  | Value.dt y m d h mi s, Value.dt y' m' d' h' mi' s' =>
      y = y' && m = m' && d = d' && h = h' && mi = mi' && s = s'
  | _, _ => false

/-- Value of a run of decimal digits. -/
def digitsToNat (cs : List Char) : ℕ :=
  cs.foldl (fun a c => a * 10 + (c.toNat - 48)) 0

/-- Parse an unsigned Python float literal (digits with an optional single
decimal point; at least one digit overall), as a numerator/denominator
pair.  Exponent notation and the inf/nan literals are modeled as parse
failures: a parsed nan compares unequal to every number, which is
observationally the same as falling through to the generic comparison in
`find_differences`. -/
def parseUnsignedFloat (cs : List Char) : Option (ℕ × ℕ) :=
  match cs.splitOn '.' with
  | [ip] =>
      if ip ≠ [] ∧ ip.all Char.isDigit then some (digitsToNat ip, 1) else none
  | [ip, fp] =>
      if (ip ≠ [] ∨ fp ≠ []) ∧ ip.all Char.isDigit ∧ fp.all Char.isDigit then
        some (digitsToNat ip * 10 ^ fp.length + digitsToNat fp, 10 ^ fp.length)
      else none
  | _ => none

/-- Strip leading and trailing whitespace, as Python float() does to its
string argument. -/
def pyStrip (cs : List Char) : List Char :=
  ((cs.dropWhile Char.isWhitespace).reverse.dropWhile Char.isWhitespace).reverse

/-- Parse a Python float literal: optional sign around an unsigned literal,
surrounding whitespace stripped. -/
def parseFloat (s : String) : Option ℚ :=
  match pyStrip s.toList with
  | '-' :: rest => (parseUnsignedFloat rest).map (fun p => mkRat (-(p.1 : ℤ)) p.2)
  | '+' :: rest => (parseUnsignedFloat rest).map (fun p => mkRat p.1 p.2)
  | cs => (parseUnsignedFloat cs).map (fun p => mkRat p.1 p.2)

/-- Python float(v) on a cell value, with `none` modeling a raised
ValueError/TypeError (source lines 212-218 catch exactly those). -/
def floatOfValue : Value → Option ℚ
  | Value.num q => some q
  | Value.bool b => some (if b then 1 else 0)
  | Value.str s => parseFloat s
  | _ => none

/-- pd.isna on a cell value. -/
def isNA : Value → Bool
  | Value.nan => true
  | _ => false

/-- The conversion of list-like values to their string form before
comparison (source lines 193-202). -/
def normListStr (v : Value) : Value :=
  match v with
  | Value.listV l => Value.str (pyStrList l)
  | _ => v

/-- The absence test of source line 205/207:
pd.isna(v) or v in ["", "None"]. -/
def isAbsentMark (v : Value) : Bool :=
  isNA v || v = Value.str "" || v = Value.str "None"

/-- Normalization applied to each side before comparison in
`find_differences` (source lines 193-208): lists become their string form,
then NaN, the empty string and the literal string "None" all collapse to
the absent value (Python None, modeled as Option.none). -/
def normCompare (v : Value) : Option Value :=
  let v := normListStr v
  if isAbsentMark v then none else some v

/-- Python == on possibly-absent normalized values:
None == None is True, None == v is False for any value v. -/
def pyEqOpt : Option Value → Option Value → Bool
  | none, none => true
  | some a, some b => valEq a b
  | _, _ => false

/-- The float(v) if v is not None else None step of source lines 213-214;
the outer `none` models a raised exception. -/
def floatOfOpt : Option Value → Option (Option ℚ)
  | none => some none
  | some v => (floatOfValue v).map some

/-- Whether `find_differences` reports a difference for one field (source
lines 189-221): normalize both sides, apply the numeric override for the
amount column (if both float conversions succeed without raising and the
results are Python-equal, report no difference; a raised conversion falls
through), otherwise compare the normalized values with Python ==. -/
def diffField (col : String) (histVal scrapVal : Value) : Bool :=
  let h := normCompare histVal
  let s := normCompare scrapVal
  if col = "amount" then
    match floatOfOpt h, floatOfOpt s with
    | some hn, some sn => if hn = sn then false else !pyEqOpt h s
    | _, _ => !pyEqOpt h s
  else !pyEqOpt h s

/-- A DataFrame row: an association list from column name to cell value. -/
def Row : Type := List (String × Value)

instance : DecidableEq Row := inferInstanceAs (DecidableEq (List (String × Value)))

/-- Cell lookup in a row.  A missing label yields NaN, matching
row.get(col) returning None (for which pd.isna is true). -/
def getCell (r : Row) (c : String) : Value :=
  (r.lookup c).getD Value.nan

/-- Insert-or-replace for an association list, preserving the position of
an existing key.  Models Python dict assignment d[k] = v and is also used
to set one cell of a row. -/
def upsert {κ α : Type} [DecidableEq κ] : List (κ × α) → κ → α → List (κ × α)
  | [], k, v => [(k, v)]
  | (k', v') :: t, k, v =>
      if k' = k then (k, v) :: t else (k', v') :: upsert t k v

/-- Set one cell of a row. -/
def setCell (r : Row) (c : String) (v : Value) : Row := upsert r c v

/-- A DataFrame: a column list and a list of rows. -/
structure DataFrame where
  cols : List String
  rows : List Row
deriving DecidableEq

/-- The per-sku field differences of source lines 187-225: for each compared
column, if `diffField` reports a difference, record the original (pre-
normalization) historical and scraped values. -/
def rowDiffs (cols : List String) (hrow srow : Row) : List (String × Value × Value) :=
  cols.filterMap (fun c =>
    if diffField c (getCell hrow c) (getCell srow c) then
      some (c, getCell hrow c, getCell srow c)
    else none)

/-- columns_to_compare of source line 176: all columns of the scraped data
except sku and date. -/
def columnsToCompare (scraped : DataFrame) : List String :=
  scraped.cols.filter (fun c => c != "sku" && c != "date")

/-- The body of the row loop of find_differences (source lines 179-228) for
one historical row: look up the first scraped row with a Python-equal sku
(lines 181-186, .iloc[0] takes the first match); skip the sku if there is
no match; compute the field differences; record them in the result dict
only when at least one field differs (lines 227-228). -/
def diffStep (scraped : DataFrame) (cols : List String)
    (acc : List (Value × List (String × Value × Value))) (row : Row) :
    List (Value × List (String × Value × Value)) :=
  match scraped.rows.find? (fun r => valEq (getCell r "sku") (getCell row "sku")) with
  | none => acc
  | some srow =>
      if rowDiffs cols row srow = [] then acc
      else upsert acc (getCell row "sku") (rowDiffs cols row srow)

/-- The Diff Engine, find_differences of source lines 174-230: fold the row
loop over the historical rows, starting from the empty dict. -/
def find_differences (hist scraped : DataFrame) : List (Value × List (String × Value × Value)) :=
  hist.rows.foldl (diffStep scraped (columnsToCompare scraped)) []

/-- Outcome of one HTTP GET in the fetch loop: a transport failure
(requests.exceptions.RequestException) or a successful JSON response whose
body may (`ok (some rs)`) or may not (`ok none`) contain the results key. -/
inductive FetchResult (α : Type) where
  | fail : FetchResult α
  | ok   : Option (List α) → FetchResult α

/-- The mutable loop state of scrape_all_pages (source lines 69-70):
product_list, records_scraped, current_page. -/
structure ScrapeState (α : Type) where
  productList : List α
  recordsScraped : ℕ
  currentPage : ℕ
deriving DecidableEq

/-- The inner retry loop of source lines 78-102: attempt requests for one
page while retries is under budget; the first success returns the parsed
body, `none` means the budget was exhausted (retries == max_retries and
the outer break of lines 104-106 fires).  `attempt i` is the outcome of
attempt number i for this page. -/
def fetchWithRetries {α : Type} (attempt : ℕ → FetchResult α) :
    ℕ → ℕ → Option (Option (List α))
  | _, 0 => none
  | i, b + 1 =>
      match attempt i with
      | FetchResult.fail => fetchWithRetries attempt (i + 1) b
      | FetchResult.ok d => some d

/-- One iteration of the outer while-loop of scrape_all_pages (source lines
73-106): fetch the current page with retries; on exhausted retries `none`;
on a successful response append the results and advance records_scraped
only when the results key is present (lines 85-93), and advance
current_page in every successful case (line 95). -/
def scrapeStep {α} (env : ℕ → ℕ → FetchResult α) (maxRetries : ℕ)
    (s : ScrapeState α) : Option (ScrapeState α) :=
  match fetchWithRetries (env s.currentPage) 0 maxRetries with
  | none => none
  | some none => some { s with currentPage := s.currentPage + 1 }
  | some (some rs) =>
      some { productList := s.productList ++ rs,
             recordsScraped := s.recordsScraped + rs.length,
             currentPage := s.currentPage + 1 }

/-- The outer while-loop (source line 73: while records_scraped <
total_records), with a fuel parameter bounding the number of iterations
observed: `none` means the loop has not returned within `fuel` iterations,
`some l` means it returned product_list = l. -/
def scrapeLoop {α} (env : ℕ → ℕ → FetchResult α) (maxRetries totalRecords : ℕ) :
    ℕ → ScrapeState α → Option (List α)
  | 0, _ => none
  | fuel + 1, s =>
      if s.recordsScraped < totalRecords then
        match scrapeStep env maxRetries s with
        | none => some s.productList
        | some s' => scrapeLoop env maxRetries totalRecords fuel s'
      else some s.productList

/-- scrape_all_pages (source lines 55-108).  `env page attempt` is the
outcome of attempt number `attempt` on page `page` (pages are requested in
increasing order, so this determines every request of a run).  The initial
state is per lines 69-70; note that total_pages of line 71 is computed by
the source but never used. -/
def scrape_all_pages {α} (env : ℕ → ℕ → FetchResult α)
    (totalRecords recordsScraped pageSize maxRetries fuel : ℕ) : Option (List α) :=
  scrapeLoop env maxRetries totalRecords fuel
    ⟨[], recordsScraped, recordsScraped / pageSize⟩

/-- The empty DataFrame pd.DataFrame() of source line 124: no columns, no
rows. -/
def emptyDataFrame : DataFrame := ⟨[], []⟩

/-- load_combined_dataframe (source lines 111-124), with the filesystem and
the network abstracted into the optional local and remote tables: prefer
the local file, else the remote one, else the empty DataFrame (the
first-run case of lines 121-124, which never raises). -/
def load_combined_dataframe (localT remoteT : Option DataFrame) : DataFrame :=
  match localT with
  | some df => df
  | none =>
      match remoteT with
      | some df => df
      | none => emptyDataFrame

/-- pd.to_numeric(v, errors="coerce") on one cell (source line 168): keep
numbers, convert booleans and numeric strings (same literal grammar as
float()), and coerce everything else, including NaN, to NaN (none). -/
def toNumericCoerce : Value → Option ℚ
  | Value.num q => some q
  | Value.bool b => some (if b then 1 else 0)
  | Value.str s => parseFloat s
  | _ => none

/-- Multiplication of a rational by 100, written with mkRat so that it
evaluates by kernel reduction. -/
def timesHundred (q : ℚ) : ℚ := mkRat (q.num * 100) q.den

/-- Division of a rational by 100, written with mkRat. -/
def divByHundred (q : ℚ) : ℚ := mkRat q.num (q.den * 100)

/-- An integer divided by 100, as a rational. -/
def intDivHundred (z : ℤ) : ℚ := mkRat z 100

/-- Round to the nearest integer, ties to even: the rounding of numpy,
which pandas .round uses.  The comparisons are carried out on integers:
with f = ⌊q⌋, the fractional part q - f compares to 1/2 exactly as
2 * (q.num - f * q.den) compares to q.den. -/
def roundHalfEven (q : ℚ) : ℤ :=
  let f : ℤ := q.num.fdiv q.den
  let r2 : ℤ := 2 * (q.num - f * (q.den : ℤ))
  if r2 < (q.den : ℤ) then f
  else if (q.den : ℤ) < r2 then f + 1
  else if f % 2 = 0 then f else f + 1

/-- Round to 2 decimal places: the .round(2) of source line 169. -/
def round2 (q : ℚ) : ℚ := intDivHundred (roundHalfEven (timesHundred q))

/-- The monetary-column transformation of source lines 168-169 on one cell:
pd.to_numeric(v, errors="coerce"), divided by 100, rounded to 2 decimals;
a value that fails numeric coercion becomes NaN instead of raising. -/
def formatPrice (v : Value) : Value :=
  match toNumericCoerce v with
  | none => Value.nan
  | some q => Value.num (round2 (divByHundred q))

/-- Parse the digit run of one date/time component. -/
def parseNatComp (cs : List Char) : Option ℕ :=
  if cs ≠ [] ∧ cs.all Char.isDigit then some (digitsToNat cs) else none

/-- Parse a YYYY-MM-DD date. -/
def parseYmd (cs : List Char) : Option (ℕ × ℕ × ℕ) :=
  match cs.splitOn '-' with
  | [y, m, d] => do
      let y ← parseNatComp y
      let m ← parseNatComp m
      let d ← parseNatComp d
      if 1 ≤ m ∧ m ≤ 12 ∧ 1 ≤ d ∧ d ≤ 31 then some (y, m, d) else none
  | _ => none

/-- Parse a HH:MM:SS time. -/
def parseHms (cs : List Char) : Option (ℕ × ℕ × ℕ) :=
  match cs.splitOn ':' with
  | [h, mi, s] => do
      let h ← parseNatComp h
      let mi ← parseNatComp mi
      let s ← parseNatComp s
      if h ≤ 23 ∧ mi ≤ 59 ∧ s ≤ 59 then some (h, mi, s) else none
  | _ => none

/-- pd.to_datetime(v, format="mixed") on one cell (source line 361),
modeled for the date formats this pipeline itself produces: the ISO date
"YYYY-MM-DD" that extract_product_data stamps (line 154), and the
timestamp form "YYYY-MM-DD HH:MM:SS" that a previous run persisted for a
converted date cell (see strOfValue).  NaN stays NaT; a value to_datetime
cannot parse raises, modeled as Except.error. -/
def toDatetimeMixed (v : Value) : Except String Value :=
  match v with
  | Value.nan => Except.ok Value.nan
  | Value.dt y m d h mi s => Except.ok (Value.dt y m d h mi s)
  | Value.str s =>
      (match s.toList.splitOn ' ' with
       | [ds] =>
           match parseYmd ds with
           | some (y, m, d) => Except.ok (Value.dt y m d 0 0 0)
           | none => Except.error ("to_datetime: " ++ s)
       | [ds, ts] =>
           match parseYmd ds, parseHms ts with
           | some (y, m, d), some (h, mi, se) => Except.ok (Value.dt y m d h mi se)
           | _, _ => Except.error ("to_datetime: " ++ s)
       | _ => Except.error ("to_datetime: " ++ s))
  | _ => Except.error "to_datetime: unsupported value"

/-- Apply an Except-valued function to every element of a list; the first
error aborts, modeling an exception escaping a loop. -/
def mapExcept {α β : Type} (f : α → Except String β) : List α → Except String (List β)
  | [] => Except.ok []
  | a :: l =>
      match f a with
      | Except.error e => Except.error e
      | Except.ok b =>
          match mapExcept f l with
          | Except.error e => Except.error e
          | Except.ok bs => Except.ok (b :: bs)

/-- Parsing one date cell of the historical table: on success the date cell
of the row is replaced in place. -/
def parseDateRow (r : Row) : Except String Row :=
  match toDatetimeMixed (getCell r "date") with
  | Except.error e => Except.error e
  | Except.ok d => Except.ok (setCell r "date" d)

/-- The date-parsing statement of source line 361, which reads and then
rewrites the date column of the historical table in place:
combined_dataframe["date"] = pd.to_datetime(combined_dataframe["date"],
format="mixed").  Reading a column a DataFrame does not have raises
KeyError; in particular that is what pd.DataFrame()["date"] does. -/
def parseDateStage (df : DataFrame) : Except String DataFrame :=
  if "date" ∈ df.cols then
    match mapExcept parseDateRow df.rows with
    | Except.error e => Except.error e
    | Except.ok newRows => Except.ok ⟨df.cols, newRows⟩
  else Except.error "KeyError: date"

/-- The sku of a row, as a string; sku cells are strings throughout this
pipeline (non-string skus are outside the scope of the claims). -/
def skuStr (r : Row) : String :=
  match getCell r "sku" with
  | Value.str s => s
  | _ => ""

/-- Injective encoding of a timestamp as a number, for date ordering. -/
def dateCode (v : Value) : ℕ :=
  match v with
  | Value.dt y m d h mi s => ((((y * 13 + m) * 32 + d) * 24 + h) * 60 + mi) * 60 + s
  | _ => 0

/-- Date of a row, encoded for ordering. -/
def rowDate (r : Row) : ℕ := dateCode (getCell r "date")

/-- Strict lexicographic order on character lists. -/
def charListLt : List Char → List Char → Bool
  | [], [] => false
  | [], _ :: _ => true
  | _ :: _, [] => false
  | a :: as, b :: bs =>
      decide (a.toNat < b.toNat) || (a = b && charListLt as bs)

/-- Strict lexicographic order on strings (the order < of Python and of
pandas sorting on a string column). -/
def strLt (a b : String) : Bool := charListLt a.toList b.toList

/-- Strict (sku, date) lexicographic order between rows: the sort key of
source line 362. -/
def rowKeyLt (a b : Row) : Bool :=
  strLt (skuStr a) (skuStr b) ||
    (skuStr a == skuStr b && decide (rowDate a < rowDate b))

/-- Insert a row into a list sorted by (sku, date), before any row of equal
key; together with insertion from the right (foldr) this is a stable
sort. -/
def sortedInsert (r : Row) : List Row → List Row
  | [] => [r]
  | x :: xs => if rowKeyLt x r then x :: sortedInsert r xs else r :: x :: xs

/-- combined_dataframe.sort_values(by=["sku", "date"]) of source line 362:
a stable ascending sort by the (sku, date) key — a sort_values on more
than one column is numpy lexsort, which is stable. -/
def sortValues (rs : List Row) : List Row := rs.foldr sortedInsert []

/-- Last entry of a column within a group, skipping NA elements: the
semantics of DataFrameGroupBy.last, whose skipna parameter defaults to
true.  NaN when every entry of the group is NA. -/
def lastNonNA (vs : List Value) : Value :=
  ((vs.filter (fun v => !isNA v)).getLast?).getD Value.nan

/-- The rows of one sku group, in the order of the sorted frame. -/
def latestGroup (df : DataFrame) (k : String) : List Row :=
  (sortValues df.rows).filter (fun r => skuStr r == k)

/-- The output row of groupby("sku").last().reset_index() for one group:
sku first (reset_index), then for every other column the LAST NON-NA entry
of the group in that column, per the semantics of GroupBy.last (its skipna
parameter defaults to true). -/
def latestRowFor (df : DataFrame) (k : String) : Row :=
  ("sku", Value.str k) ::
    (df.cols.filter (fun c => c != "sku")).map
      (fun c => (c, lastNonNA ((latestGroup df k).map (fun r => getCell r c))))

/-- latest_historical_data of source lines 362-363: sort by (sku, date),
then groupby("sku").last().reset_index().  One output row per distinct sku
(groupby sorts the groups by key, which the sorted frame already
guarantees). -/
def latest_historical_data (df : DataFrame) : DataFrame :=
  ⟨"sku" :: df.cols.filter (fun c => c != "sku"),
   (((sortValues df.rows).map skuStr).dedup).map (latestRowFor df)⟩

/-- skus_with_differences of source line 378: the ChangeSet keys. -/
def changesetSkus (latest newEntries : DataFrame) : List Value :=
  (find_differences latest newEntries).map Prod.fst

/-- records_to_append of source lines 378-380: the scraped rows whose sku
is an isin-member of skus_with_differences; nothing when the ChangeSet is
empty (line 379 guards emptiness, lines 382-383 then keep the table). -/
def recordsToAppend (latest newEntries : DataFrame) : List Row :=
  if changesetSkus latest newEntries = [] then []
  else newEntries.rows.filter
    (fun r => (changesetSkus latest newEntries).any (fun k => valEq (getCell r "sku") k))

/-- Steps 5 and 6 of main (source lines 361-385), composed: parse the date
column of the historical table in place, build the latest-per-sku view,
diff it against the scraped entries, and append the records_to_append to
the (date-converted) table.  The returned row list is what
updated_combined_dataframe.to_csv persists. -/
def mainUpdate (combined newEntries : DataFrame) : Except String (List Row) :=
  match parseDateStage combined with
  | Except.error e => Except.error e
  | Except.ok combined' =>
      Except.ok
        (combined'.rows ++ recordsToAppend (latest_historical_data combined') newEntries)

/-- Two-digit zero-padded decimal component. -/
def pad2 (n : ℕ) : String := if n < 10 then "0" ++ toString n else toString n

/-- The text a persisted cell shows in the CSV, for the cell values the
date column can hold: a string cell is written as is; a Timestamp in the
mixed-type (object) date column that concat produces is written via
str(), which always includes the time part, e.g. "2024-01-01 00:00:00".
(CSV formatting of numeric cells is not needed by the claims and is not
modeled.) -/
def strOfValue : Value → String
  | Value.str s => s
  | Value.dt y m d h mi s =>
      toString y ++ "-" ++ pad2 m ++ "-" ++ pad2 d ++ " " ++
        pad2 h ++ ":" ++ pad2 mi ++ ":" ++ pad2 s
  | _ => ""

/-- One step of the walk that keeps the latest maximum-date row seen so
far; a later row wins a date tie. -/
def pickLater (acc : Option Row) (r : Row) : Option Row :=
  match acc with
  | none => some r
  | some m => if rowDate m ≤ rowDate r then some r else some m

/-- The last row attaining the maximum date of a row list (none when the
list is empty): maximum date, ties broken in favour of the later row. -/
def lastMaxFold (g : List Row) : Option Row := g.foldl pickLater none

/-- Written from the spec, for claim C8, as the statement to compare the
code against: the latest-known state of a sku is THE single row with the
maximum date among the rows sharing that sku, ties broken by the
last-appended / original insertion order (a later row wins a tie). -/
def specLatestRow (rows : List Row) (k : String) : Option Row :=
  lastMaxFold (rows.filter (fun r => skuStr r == k))

/-- Insertion by date only (used to reason about the per-sku groups of the
stable sort): a row is inserted after all strictly earlier dates, before
any row of equal or later date. -/
def dateInsert (r : Row) : List Row → List Row
  | [] => [r]
  | x :: xs => if rowDate x < rowDate r then x :: dateInsert r xs else r :: x :: xs

/-- Stable insertion sort by date alone. -/
def dateSort (l : List Row) : List Row := l.foldr dateInsert []

/-- The latest view of a one-row table, used as a concrete witness. -/
def exDfC8w : DataFrame :=
  ⟨["sku", "date", "amount"],
   [[("sku", Value.str "A"), ("date", Value.dt 2024 1 1 0 0 0), ("amount", Value.str "5")]]⟩

/-- The view row that exDfC8w produces. -/
def exViewRowC8 : Row :=
  [("sku", Value.str "A"), ("date", Value.dt 2024 1 1 0 0 0), ("amount", Value.str "5")]

/-- Concrete historical row: sku A observed on 2024-01-01 with amount 5. -/
def exHistRowC2 : Row :=
  [("sku", Value.str "A"), ("date", Value.str "2024-01-01"), ("amount", Value.str "5")]

/-- Concrete one-row historical table used to exhibit the date rewriting. -/
def exCombinedC2 : DataFrame := ⟨["sku", "date", "amount"], [exHistRowC2]⟩

/-- Concrete scraped row for the same sku with a changed amount. -/
def exNewRowC2 : Row :=
  [("sku", Value.str "A"), ("date", Value.str "2024-06-01"), ("amount", Value.str "6")]

/-- Concrete scraped batch that makes the run append one row. -/
def exNewC2 : DataFrame := ⟨["sku", "date", "amount"], [exNewRowC2]⟩

/-- The historical row as the run persists it: identical except that the
date cell has been replaced by its parsed Timestamp. -/
def exPersistedRowC2 : Row :=
  [("sku", Value.str "A"), ("date", Value.dt 2024 1 1 0 0 0), ("amount", Value.str "5")]

/-- The full persisted table of the run on exCombinedC2 and exNewC2. -/
def exPersistedC2 : List Row := [exPersistedRowC2, exNewRowC2]

/-- Concrete scraped row whose sku B never occurs in exCombinedC2. -/
def exNewRowC4 : Row :=
  [("sku", Value.str "B"), ("date", Value.str "2024-06-01"), ("amount", Value.str "9")]

/-- Concrete scraped batch consisting of only the never-seen sku B. -/
def exNewC4 : DataFrame := ⟨["sku", "date", "amount"], [exNewRowC4]⟩

/-- Earlier historical row of sku A: amount present. -/
def exR1C8 : Row :=
  [("sku", Value.str "A"), ("date", Value.dt 2024 1 1 0 0 0), ("amount", Value.str "5")]

/-- Later (maximum-date) historical row of sku A: amount is NaN. -/
def exR2C8 : Row :=
  [("sku", Value.str "A"), ("date", Value.dt 2024 1 2 0 0 0), ("amount", Value.nan)]

/-- Fetch environment in which page 0 succeeds with one record and every
request for page 1 fails. -/
def envC9 : ℕ → ℕ → FetchResult ℕ :=
  fun p _ => if p = 0 then FetchResult.ok (some [7]) else FetchResult.fail

/-- mkRat written as division of rationals. -/
theorem mkRat_cast_eq_div (n : ℤ) (d : ℕ) : (mkRat n d : ℚ) = (n : ℚ) / (d : ℚ) :=
  Rat.mkRat_eq_div n d

/-- timesHundred is multiplication by 100. -/
theorem timesHundred_eq (q : ℚ) : timesHundred q = q * 100 := by
  rw [timesHundred, Rat.mkRat_eq_div]
  push_cast
  conv_rhs => rw [← Rat.num_div_den q]
  ring

/-- divByHundred is division by 100. -/
theorem divByHundred_eq (q : ℚ) : divByHundred q = q / 100 := by
  rw [divByHundred, Rat.mkRat_eq_div]
  push_cast
  conv_rhs => rw [← Rat.num_div_den q]
  ring

/-- intDivHundred is division by 100. -/
theorem intDivHundred_eq (z : ℤ) : intDivHundred z = (z : ℚ) / 100 := by
  rw [intDivHundred, Rat.mkRat_eq_div]
  norm_num

/-- Rounding an integer changes nothing. -/
theorem roundHalfEven_intCast (n : ℤ) : roundHalfEven ((n : ℚ)) = n := by
  unfold roundHalfEven
  rw [Rat.intCast_num, Rat.intCast_den]
  simp

/-- C10: for each monetary field, an integer minor-unit source value v
normalizes to v / 100 (a quantity with at most 2 decimal places, so the
rounding to 2 decimals of line 169 is the identity on it); 1299 normalizes
to 12.99; and an unparseable source value coerces to NaN instead of
raising. -/
theorem monetary_rescale :
    (∀ n : ℤ, formatPrice (Value.num ((n : ℚ))) = Value.num ((n : ℚ) / 100))
    ∧ formatPrice (Value.num 1299) = Value.num (mkRat 1299 100)
    ∧ (mkRat 1299 100 : ℚ) = 12.99
    ∧ (∀ s : String, parseFloat s = none → formatPrice (Value.str s) = Value.nan) := by
  refine ⟨?_, by decide, ?_, ?_⟩
  · intro n
    show Value.num (round2 (divByHundred ((n : ℚ)))) = Value.num ((n : ℚ) / 100)
    rw [round2, divByHundred_eq, timesHundred_eq, div_mul_cancel₀ _ (by norm_num : (100 : ℚ) ≠ 0),
      roundHalfEven_intCast, intDivHundred_eq]
  · rw [Rat.mkRat_eq_div]; norm_num
  · intro s h
    show (match toNumericCoerce (Value.str s) with
          | none => Value.nan
          | some q => Value.num (round2 (divByHundred q))) = Value.nan
    rw [show toNumericCoerce (Value.str s) = parseFloat s from rfl, h]

/-- Witness for C10 at concrete inputs: the non-numeric string "abc"
coerces to NaN, and the integer 500 normalizes to 5. -/
theorem monetary_rescale_witness :
    formatPrice (Value.str "abc") = Value.nan
    ∧ formatPrice (Value.num ((500 : ℤ) : ℚ)) = Value.num (((500 : ℤ) : ℚ) / 100) :=
  ⟨monetary_rescale.2.2.2 "abc" (by decide), monetary_rescale.1 500⟩

/-- C6: for a non-amount field, every combination of NaN, the empty string
and the literal string "None" on the two sides is reported as no
difference by the Diff Engine. -/
theorem absence_equivalence_no_diff (col : String) (hcol : col ≠ "amount")
    (v w : Value)
    (hv : v = Value.nan ∨ v = Value.str "" ∨ v = Value.str "None")
    (hw : w = Value.nan ∨ w = Value.str "" ∨ w = Value.str "None") :
    diffField col v w = false := by
  have hv' : normCompare v = none := by rcases hv with h | h | h <;> subst h <;> rfl
  have hw' : normCompare w = none := by rcases hw with h | h | h <;> subst h <;> rfl
  simp [diffField, hv', hw', hcol, pyEqOpt]

/-- Witness for C6: NaN against the empty string on the bundleInfo field
is not a difference. -/
theorem absence_equivalence_no_diff_witness :
    diffField "bundleInfo" Value.nan (Value.str "") = false :=
  absence_equivalence_no_diff "bundleInfo" (by decide) Value.nan (Value.str "")
    (Or.inl rfl) (Or.inr (Or.inl rfl))

/-- C7: on the amount field, if both sides convert to numbers (no raise)
and the numbers are equal, no difference is reported; if the conversion of
either side raises, the outcome is exactly that of the generic
absent/Python-equality rule; in particular historical "500" against
scraped 500.0 is no difference, while historical "abc" against scraped
500 is a difference. -/
theorem amount_numeric_override :
    (∀ v w : Value, ∀ q₁ q₂ : ℚ,
        floatOfOpt (normCompare v) = some (some q₁) →
        floatOfOpt (normCompare w) = some (some q₂) →
        q₁ = q₂ →
        diffField "amount" v w = false)
    ∧ (∀ v w : Value,
        floatOfOpt (normCompare v) = none ∨ floatOfOpt (normCompare w) = none →
        diffField "amount" v w = !pyEqOpt (normCompare v) (normCompare w))
    ∧ diffField "amount" (Value.str "500") (Value.num 500) = false
    ∧ diffField "amount" (Value.str "abc") (Value.num 500) = true := by
  refine ⟨?_, ?_, by decide, by decide⟩
  · intro v w q₁ q₂ h1 h2 heq
    subst heq
    simp [diffField, h1, h2]
  · intro v w h
    rcases h with h | h
    · cases h2 : floatOfOpt (normCompare w) <;> simp [diffField, h, h2]
    · cases h1 : floatOfOpt (normCompare v) <;> simp [diffField, h, h1]

/-- Witness for C7: the string "2" equals the number 2 numerically, and an
unconvertible historical "abc" makes the amount comparison fall back to
the generic rule. -/
theorem amount_numeric_override_witness :
    diffField "amount" (Value.str "2") (Value.num 2) = false
    ∧ diffField "amount" (Value.str "abc") (Value.num 5)
        = !pyEqOpt (normCompare (Value.str "abc")) (normCompare (Value.num 5)) :=
  ⟨amount_numeric_override.1 (Value.str "2") (Value.num 2) 2 2 (by decide) (by decide) rfl,
   amount_numeric_override.2.1 (Value.str "abc") (Value.num 5) (Or.inl (by decide))⟩

/-- C3 (code bug): with the historical table absent both locally and
remotely, load_combined_dataframe does return the empty table without
raising, but the very first downstream stage of main — reading the date
column at line 361 — raises KeyError on the column-less empty DataFrame,
so the first-run bootstrap aborts instead of completing. -/
theorem first_run_bootstrap_raises_keyerror :
    load_combined_dataframe none none = emptyDataFrame
    ∧ parseDateStage (load_combined_dataframe none none)
        = Except.error "KeyError: date" :=
  ⟨rfl, rfl⟩

/-- When every attempt fails, the retry loop exhausts its budget. -/
theorem fetchWithRetries_all_fail {α : Type} (attempt : ℕ → FetchResult α)
    (h : ∀ a, attempt a = FetchResult.fail) :
    ∀ i b, fetchWithRetries attempt i b = none := by
  intro i b
  induction b generalizing i with
  | zero => rfl
  | succ n ih =>
      show (match attempt i with
            | FetchResult.fail => fetchWithRetries attempt (i + 1) n
            | FetchResult.ok d => some d) = none
      rw [h i]
      exact ih (i + 1)

/-- With one record promised and every response successful but lacking the
results key, the fetch loop never returns: records_scraped stays 0 and the
loop condition of line 73 never becomes false. -/
theorem scrapeLoop_no_results_forever :
    ∀ (fuel : ℕ) (s : ScrapeState ℕ), s.recordsScraped = 0 →
      scrapeLoop (fun _ _ => FetchResult.ok (none : Option (List ℕ))) 5 1 fuel s = none := by
  intro fuel
  induction fuel with
  | zero => intro s _; rfl
  | succ n ih =>
      intro s hs
      have hstep :
          scrapeStep (fun _ _ => FetchResult.ok (none : Option (List ℕ))) 5 s
            = some { s with currentPage := s.currentPage + 1 } := rfl
      show (if s.recordsScraped < 1 then
              match scrapeStep (fun _ _ => FetchResult.ok (none : Option (List ℕ))) 5 s with
              | none => some s.productList
              | some s' => scrapeLoop (fun _ _ => FetchResult.ok none) 5 1 n s'
            else some s.productList) = none
      rw [hstep, if_pos (by omega)]
      exact ih _ hs

/-- C1 (code bug): on every successful response, including one without the
results key, current_page does advance by one (first conjunct, the true
half of the claim); but the advance does NOT make the loop terminate once
current_page exceeds the total page count: the loop condition of line 73
only tests records_scraped, the total_pages computed at line 71 is never
used, and with total_records = 1 and every response successful but lacking
the results key, the fetch never returns no matter how many iterations it
is given (second conjunct). -/
theorem scrape_page_advance_nontermination :
    (∀ (env : ℕ → ℕ → FetchResult ℕ) (maxR : ℕ) (s s' : ScrapeState ℕ),
        scrapeStep env maxR s = some s' → s'.currentPage = s.currentPage + 1)
    ∧ (∀ fuel : ℕ,
        scrape_all_pages (fun _ _ => FetchResult.ok (none : Option (List ℕ)))
          1 0 100 5 fuel = none) := by
  constructor
  · intro env maxR s s' h
    unfold scrapeStep at h
    rcases hf : fetchWithRetries (env s.currentPage) 0 maxR with _ | _ | rs <;>
      rw [hf] at h <;> simp only [Option.some.injEq] at h
    · exact absurd h (by simp)
    · rw [← h]
    · rw [← h]
  · intro fuel
    exact scrapeLoop_no_results_forever fuel ⟨[], 0, 0⟩ rfl

/-- Witness for C1: a concrete successful step advances current_page from
0 to 1, and the no-results loop is still running after 7 iterations. -/
theorem scrape_page_advance_nontermination_witness :
    (ScrapeState.currentPage (α := ℕ) ⟨[7], 1, 1⟩ = ScrapeState.currentPage (α := ℕ) ⟨[], 0, 0⟩ + 1)
    ∧ scrape_all_pages (fun _ _ => FetchResult.ok (none : Option (List ℕ))) 1 0 100 5 7 = none :=
  ⟨scrape_page_advance_nontermination.1 (fun _ _ => FetchResult.ok (some [7])) 5 ⟨[], 0, 0⟩
      ⟨[7], 1, 1⟩ rfl,
   scrape_page_advance_nontermination.2 7⟩

/-- C9: if page 0 succeeds with records rs (not yet completing the total)
and every attempt at page 1 fails, the fetch stops after exhausting the
retry budget on page 1 and returns exactly rs — the records accumulated
from the pages that succeeded — as an ordinary value, not an error. -/
theorem partial_fetch_on_exhausted_retries {α : Type}
    (env : ℕ → ℕ → FetchResult α) (rs : List α) (total maxR fuel : ℕ)
    (h0 : env 0 0 = FetchResult.ok (some rs))
    (h1 : ∀ a, env 1 a = FetchResult.fail)
    (hlen : rs.length < total)
    (hmr : 0 < maxR)
    (hfuel : 2 ≤ fuel) :
    scrape_all_pages env total 0 100 maxR fuel = some rs := by
  obtain ⟨f, rfl⟩ : ∃ f, fuel = f + 2 := ⟨fuel - 2, by omega⟩
  obtain ⟨m, rfl⟩ : ∃ m, maxR = m + 1 := ⟨maxR - 1, by omega⟩
  have hfetch0 : fetchWithRetries (env 0) 0 (m + 1) = some (some rs) := by
    show (match env 0 0 with
          | FetchResult.fail => fetchWithRetries (env 0) 1 m
          | FetchResult.ok d => some d) = some (some rs)
    rw [h0]
  have hstep0 : scrapeStep env (m + 1) ⟨[], 0, 0⟩ = some ⟨rs, rs.length, 1⟩ := by
    show (match fetchWithRetries (env 0) 0 (m + 1) with
          | none => none
          | some none => some (⟨[], 0, 0 + 1⟩ : ScrapeState α)
          | some (some rs') =>
              some ⟨[] ++ rs', 0 + rs'.length, 0 + 1⟩) = some ⟨rs, rs.length, 1⟩
    rw [hfetch0]
    simp
  have hstep1 : scrapeStep env (m + 1) (⟨rs, rs.length, 1⟩ : ScrapeState α) = none := by
    show (match fetchWithRetries (env 1) 0 (m + 1) with
          | none => none
          | some none => some (⟨rs, rs.length, 1 + 1⟩ : ScrapeState α)
          | some (some rs') =>
              some ⟨rs ++ rs', rs.length + rs'.length, 1 + 1⟩) = none
    rw [fetchWithRetries_all_fail (env 1) h1 0 (m + 1)]
  show scrapeLoop env (m + 1) total (f + 2) ⟨[], 0, 0⟩ = some rs
  have hpos : (0 : ℕ) < total := lt_of_le_of_lt (Nat.zero_le _) hlen
  calc scrapeLoop env (m + 1) total (f + 2) ⟨[], 0, 0⟩
      = scrapeLoop env (m + 1) total (f + 1) ⟨rs, rs.length, 1⟩ := by
        show (if (0 : ℕ) < total then
                match scrapeStep env (m + 1) ⟨[], 0, 0⟩ with
                | none => some []
                | some s' => scrapeLoop env (m + 1) total (f + 1) s'
              else some []) = _
        rw [if_pos hpos, hstep0]
    _ = some rs := by
        show (if rs.length < total then
                match scrapeStep env (m + 1) (⟨rs, rs.length, 1⟩ : ScrapeState α) with
                | none => some rs
                | some s' => scrapeLoop env (m + 1) total f s'
              else some rs) = some rs
        rw [if_pos hlen, hstep1]

/-- Witness for C9: in the concrete environment envC9 with 2 promised
records, the fetch returns exactly the page-0 records. -/
theorem partial_fetch_on_exhausted_retries_witness :
    scrape_all_pages envC9 2 0 100 5 2 = some [7] :=
  partial_fetch_on_exhausted_retries envC9 [7] 2 5 2 rfl (fun _ => rfl)
    (by decide) (by decide) (by decide)

/-- Keys of an upsert: the inserted key together with the existing keys. -/
theorem mem_keys_upsert {κ α : Type} [DecidableEq κ] (d : List (κ × α)) (k a : κ) (v : α) :
    a ∈ (upsert d k v).map Prod.fst ↔ a = k ∨ a ∈ d.map Prod.fst := by
  induction d with
  | nil => simp [upsert]
  | cons p t ih =>
      obtain ⟨k', v'⟩ := p
      simp only [upsert]
      by_cases h : k' = k
      · subst h
        rw [if_pos rfl]
        simp only [List.map_cons, List.mem_cons]
        tauto
      · rw [if_neg h]
        simp only [List.map_cons, List.mem_cons, ih]
        tauto

/-- Keys added by one iteration of the diff loop: the row's sku appears
among the keys exactly if it already did, or the row found a Python-equal
scraped partner with at least one differing field. -/
theorem mem_keys_diffStep (scraped : DataFrame) (cols : List String)
    (acc : List (Value × List (String × Value × Value))) (row : Row) (a : Value) :
    a ∈ (diffStep scraped cols acc row).map Prod.fst ↔
      a ∈ acc.map Prod.fst ∨
        (getCell row "sku" = a ∧
          ∃ srow, scraped.rows.find?
              (fun r => valEq (getCell r "sku") (getCell row "sku")) = some srow ∧
            rowDiffs cols row srow ≠ []) := by
  unfold diffStep
  cases hf : scraped.rows.find? (fun r => valEq (getCell r "sku") (getCell row "sku")) with
  | none => simp [hf]
  | some srow =>
      simp only [hf]
      by_cases hds : rowDiffs cols row srow = []
      · rw [if_pos hds]
        simp only [Option.some.injEq]
        constructor
        · exact Or.inl
        · rintro (h | ⟨_, srow', rfl, hne⟩)
          · exact h
          · exact absurd hds hne
      · rw [if_neg hds, mem_keys_upsert]
        simp only [Option.some.injEq]
        constructor
        · rintro (rfl | h)
          · exact Or.inr ⟨rfl, srow, rfl, hds⟩
          · exact Or.inl h
        · rintro (h | ⟨hsku, srow', rfl, hne⟩)
          · exact Or.inr h
          · exact Or.inl hsku.symm

/-- Keys of the fold of the diff loop over a row list. -/
theorem mem_keys_diff_foldl (scraped : DataFrame) (cols : List String) :
    ∀ (rows : List Row) (acc : List (Value × List (String × Value × Value))) (a : Value),
      a ∈ (rows.foldl (diffStep scraped cols) acc).map Prod.fst ↔
        a ∈ acc.map Prod.fst ∨
          ∃ hrow ∈ rows, getCell hrow "sku" = a ∧
            ∃ srow, scraped.rows.find? (fun r => valEq (getCell r "sku") a) = some srow ∧
              rowDiffs cols hrow srow ≠ [] := by
  intro rows
  induction rows with
  | nil => intro acc a; simp
  | cons r t ih =>
      intro acc a
      rw [List.foldl_cons, ih, mem_keys_diffStep]
      constructor
      · rintro ((h | ⟨hsku, hex⟩) | ⟨hrow, hmem, hsku, hex⟩)
        · exact Or.inl h
        · exact Or.inr ⟨r, List.mem_cons_self r t, hsku, by rwa [hsku] at hex⟩
        · exact Or.inr ⟨hrow, List.mem_cons_of_mem r hmem, hsku, hex⟩
      · rintro (h | ⟨hrow, hmem, hsku, hex⟩)
        · exact Or.inl (Or.inl h)
        · rcases List.mem_cons.mp hmem with rfl | hmem'
          · exact Or.inl (Or.inr ⟨hsku, by rwa [← hsku] at hex⟩)
          · exact Or.inr ⟨hrow, hmem', hsku, hex⟩

/-- C5: the ChangeSet keys are exactly the skus of a historical row whose
Python-equal partner exists in the scraped batch (the first such row, as
.iloc[0] takes) and whose compared fields — all scraped columns except sku
and date — contain at least one difference.  A sku present on only one
side has no entry (no historical row, or find? returns none), and a sku
whose pair has zero differing fields has no entry at all (rowDiffs = []
fails the membership condition). -/
theorem changeset_membership (hist scraped : DataFrame) (a : Value) :
    a ∈ (find_differences hist scraped).map Prod.fst ↔
      ∃ hrow ∈ hist.rows, getCell hrow "sku" = a ∧
        ∃ srow, scraped.rows.find? (fun r => valEq (getCell r "sku") a) = some srow ∧
          rowDiffs (columnsToCompare scraped) hrow srow ≠ [] := by
  rw [find_differences, mem_keys_diff_foldl]
  simp

/-- A successful mapExcept produces a list of the same length whose entries
come, position by position, from successful applications of the
function. -/
theorem mapExcept_ok {α β : Type} (f : α → Except String β) :
    ∀ (l : List α) (l' : List β), mapExcept f l = Except.ok l' →
      l'.length = l.length
      ∧ (∀ (i : ℕ) (a : α), l[i]? = some a → ∃ b, l'[i]? = some b ∧ f a = Except.ok b)
      ∧ (∀ (i : ℕ) (b : β), l'[i]? = some b → ∃ a, l[i]? = some a ∧ f a = Except.ok b) := by
  intro l
  induction l with
  | nil =>
      intro l' h
      cases h
      simp
  | cons x t ih =>
      intro l' h
      rw [mapExcept] at h
      cases hx : f x with
      | error e => rw [hx] at h; cases h
      | ok b =>
          rw [hx] at h
          cases ht : mapExcept f t with
          | error e => rw [ht] at h; cases h
          | ok bs =>
              rw [ht] at h
              cases h
              obtain ⟨hlen, hfwd, hbwd⟩ := ih bs ht
              refine ⟨by simp [hlen], ?_, ?_⟩
              · intro i a ha
                cases i with
                | zero =>
                    rw [List.getElem?_cons_zero] at ha
                    cases ha
                    exact ⟨b, by simp, hx⟩
                | succ n =>
                    rw [List.getElem?_cons_succ] at ha
                    obtain ⟨b', hb', hf'⟩ := hfwd n a ha
                    exact ⟨b', by simpa using hb', hf'⟩
              · intro i b' hb'
                cases i with
                | zero =>
                    rw [List.getElem?_cons_zero] at hb'
                    cases hb'
                    exact ⟨x, by simp, hx⟩
                | succ n =>
                    rw [List.getElem?_cons_succ] at hb'
                    obtain ⟨a, ha, hf'⟩ := hbwd n b' hb'
                    exact ⟨a, by simpa using ha, hf'⟩

/-- Setting one cell changes exactly that cell. -/
theorem getCell_setCell (r : Row) (c c' : String) (v : Value) :
    getCell (setCell r c v) c' = if c' = c then v else getCell r c' := by
  unfold setCell getCell
  induction r with
  | nil =>
      by_cases h : c' = c
      · subst h
        simp [upsert, List.lookup_cons]
      · simp [upsert, List.lookup_cons, beq_false_of_ne h, h]
  | cons p t ih =>
      obtain ⟨k, w⟩ := p
      simp only [upsert]
      by_cases hk : k = c
      · subst hk
        rw [if_pos rfl]
        by_cases h : c' = k
        · subst h
          simp [List.lookup_cons]
        · simp [List.lookup_cons, beq_false_of_ne h, h]
      · rw [if_neg hk]
        by_cases h : c' = k
        · subst h
          rw [if_neg hk]
          simp [List.lookup_cons]
        · simp [List.lookup_cons, beq_false_of_ne h, h, ih]

/-- Decomposition of a successful run: the date column existed, each
historical row was date-parsed in place, and the persisted rows are the
converted historical rows followed by the records to append. -/
theorem mainUpdate_ok {combined newEntries : DataFrame} {rows : List Row}
    (hok : mainUpdate combined newEntries = Except.ok rows) :
    ∃ newRows, mapExcept parseDateRow combined.rows = Except.ok newRows ∧
      "date" ∈ combined.cols ∧
      rows = newRows ++
        recordsToAppend (latest_historical_data ⟨combined.cols, newRows⟩) newEntries := by
  unfold mainUpdate parseDateStage at hok
  by_cases hmem : "date" ∈ combined.cols
  · rw [if_pos hmem] at hok
    cases hm : mapExcept parseDateRow combined.rows with
    | error e => rw [hm] at hok; cases hok
    | ok newRows =>
        rw [hm] at hok
        cases hok
        exact ⟨newRows, rfl, hmem, rfl⟩
  · rw [if_neg hmem] at hok
    cases hok

/-- C2 (amended): in every successful run, every row of the historical
table survives at its original position (no deletion, no reordering, rows
are only appended after them), with every field except date preserved
exactly; the date field is NOT byte-for-byte preserved: line 361 rewrites
it in place to the parsed Timestamp (whose persisted text has a time
component — see the counterexample), so it is preserved only up to that
parse. -/
theorem append_only_up_to_date_conversion
    (combined newEntries : DataFrame) (rows : List Row)
    (hok : mainUpdate combined newEntries = Except.ok rows) :
    combined.rows.length ≤ rows.length
    ∧ (∀ (i : ℕ) (a : Row), combined.rows[i]? = some a →
        ∃ b, rows[i]? = some b ∧
          (∀ c : String, c ≠ "date" → getCell b c = getCell a c) ∧
          toDatetimeMixed (getCell a "date") = Except.ok (getCell b "date")) := by
  obtain ⟨newRows, hm, hmem, rfl⟩ := mainUpdate_ok hok
  obtain ⟨hlen, hfwd, _⟩ := mapExcept_ok parseDateRow combined.rows newRows hm
  constructor
  · rw [List.length_append, ← hlen]
    exact Nat.le_add_right _ _
  · intro i a ha
    obtain ⟨b, hb, hf⟩ := hfwd i a ha
    unfold parseDateRow at hf
    cases ht : toDatetimeMixed (getCell a "date") with
    | error e => rw [ht] at hf; cases hf
    | ok d =>
        rw [ht] at hf
        cases hf
        have hlt : i < newRows.length := by
          rcases List.getElem?_eq_some_iff.mp hb with ⟨h, _⟩
          exact h
        refine ⟨setCell a "date" d, ?_, ?_, ?_⟩
        · rw [List.getElem?_append_left hlt]
          exact hb
        · intro c hc
          rw [getCell_setCell, if_neg hc]
        · rw [getCell_setCell, if_pos rfl]

/-- C2 (counterexample to the claim as stated): a concrete run on a table
whose single row has the date text "2024-01-01" persists that row with its
date cell replaced by the parsed Timestamp; the persisted cell is a
different value, and its CSV text "2024-01-01 00:00:00" differs
byte-for-byte from the stored "2024-01-01". -/
theorem run_rewrites_date_counterexample :
    mainUpdate exCombinedC2 exNewC2 = Except.ok exPersistedC2
    ∧ getCell exHistRowC2 "date" = Value.str "2024-01-01"
    ∧ getCell exPersistedRowC2 "date" = Value.dt 2024 1 1 0 0 0
    ∧ strOfValue (getCell exHistRowC2 "date") = "2024-01-01"
    ∧ strOfValue (getCell exPersistedRowC2 "date") = "2024-01-01 00:00:00"
    ∧ getCell exPersistedRowC2 "date" ≠ getCell exHistRowC2 "date" :=
  ⟨rfl, rfl, rfl, rfl, rfl, by decide⟩

/-- Witness for the amended C2 at the concrete run: the single prior row is
still within the persisted table. -/
theorem append_only_up_to_date_conversion_witness :
    exCombinedC2.rows.length ≤ exPersistedC2.length :=
  (append_only_up_to_date_conversion exCombinedC2 exNewC2 exPersistedC2 rfl).1

/-- Membership in a sorted insertion. -/
theorem mem_sortedInsert (r x : Row) (l : List Row) :
    x ∈ sortedInsert r l ↔ x = r ∨ x ∈ l := by
  induction l with
  | nil => simp [sortedInsert]
  | cons y t ih =>
      rw [sortedInsert]
      by_cases h : rowKeyLt y r = true
      · rw [if_pos h]
        simp only [List.mem_cons, ih]
        try tauto
      · rw [if_neg h]
        simp only [List.mem_cons]
        try tauto

/-- The stable sort has the same members as its input. -/
theorem mem_sortValues (rs : List Row) (x : Row) : x ∈ sortValues rs ↔ x ∈ rs := by
  induction rs with
  | nil => simp [sortValues]
  | cons r t ih =>
      have hstep : sortValues (r :: t) = sortedInsert r (sortValues t) := rfl
      rw [hstep, mem_sortedInsert, ih]
      simp

/-- Every row of the latest-per-sku view carries the sku of some row of the
underlying table. -/
theorem latest_view_sku (df : DataFrame) (vr : Row)
    (hvr : vr ∈ (latest_historical_data df).rows) :
    ∃ r ∈ df.rows, getCell vr "sku" = Value.str (skuStr r) := by
  unfold latest_historical_data at hvr
  simp only [List.mem_map] at hvr
  obtain ⟨k, hk, rfl⟩ := hvr
  have hk' : k ∈ (sortValues df.rows).map skuStr := List.mem_dedup.mp hk
  simp only [List.mem_map] at hk'
  obtain ⟨r, hr, rfl⟩ := hk'
  exact ⟨r, (mem_sortValues df.rows r).mp hr, rfl⟩

/-- Python equality against a string value holds exactly for that string
value. -/
theorem valEq_str_iff (s : String) (v : Value) :
    valEq (Value.str s) v = true ↔ v = Value.str s := by
  cases v with
  | str s' =>
      simp only [valEq, decide_eq_true_eq]
      exact ⟨fun h => by rw [h], fun h => by injection h with h'; rw [h']⟩
  | nan => simp [valEq]
  | num q => simp [valEq]
  | bool b => simp [valEq]
  | listV l => simp [valEq]
  | dt y m d hh mi se => simp [valEq]

/-- C4: a freshly scraped row whose sku occurs nowhere in the loaded
historical table is never appended by the run: the appended region of the
persisted table (everything after the prior rows) cannot contain it,
because the ChangeSet keys all come from skus of historical rows. -/
theorem new_sku_rows_never_appended
    (combined newEntries : DataFrame) (rows : List Row) (r : Row) (s : String)
    (hok : mainUpdate combined newEntries = Except.ok rows)
    (hsku : getCell r "sku" = Value.str s)
    (hnew : ∀ hrow ∈ combined.rows, skuStr hrow ≠ s) :
    r ∉ rows.drop combined.rows.length := by
  obtain ⟨newRows, hm, hmem, rfl⟩ := mainUpdate_ok hok
  obtain ⟨hlen, _, hbwd⟩ := mapExcept_ok parseDateRow combined.rows newRows hm
  rw [← hlen, List.drop_left]
  intro hr
  unfold recordsToAppend at hr
  by_cases hcs :
      changesetSkus (latest_historical_data ⟨combined.cols, newRows⟩) newEntries = []
  · rw [if_pos hcs] at hr
    simp at hr
  · rw [if_neg hcs] at hr
    obtain ⟨hrn, hany⟩ := List.mem_filter.mp hr
    obtain ⟨k, hkmem, hkeq⟩ := List.any_eq_true.mp hany
    rw [hsku] at hkeq
    obtain rfl : k = Value.str s := (valEq_str_iff s k).mp hkeq
    unfold changesetSkus find_differences at hkmem
    rw [mem_keys_diff_foldl] at hkmem
    rcases hkmem with habs | ⟨hrow, hhr, hhsku, _⟩
    · simp at habs
    · obtain ⟨r0, hr0, hr0sku⟩ := latest_view_sku _ hrow hhr
      have hseq : skuStr r0 = s := by
        have := hr0sku.symm.trans hhsku
        injection this
      obtain ⟨i, hi⟩ := List.mem_iff_getElem?.mp hr0
      obtain ⟨a, ha, hfa⟩ := hbwd i r0 hi
      have haMem : a ∈ combined.rows := List.mem_iff_getElem?.mpr ⟨i, ha⟩
      unfold parseDateRow at hfa
      cases htd : toDatetimeMixed (getCell a "date") with
      | error e => rw [htd] at hfa; cases hfa
      | ok d =>
          rw [htd] at hfa
          cases hfa
          apply hnew a haMem
          rw [← hseq]
          unfold skuStr
          rw [getCell_setCell, if_neg (by decide : ("sku" : String) ≠ "date")]

/-- Witness for C4: the scraped row with the never-seen sku B is not in the
appended region of the persisted table. -/
theorem new_sku_rows_never_appended_witness :
    exNewRowC4 ∉ ([exPersistedRowC2] : List Row).drop exCombinedC2.rows.length :=
  new_sku_rows_never_appended exCombinedC2 exNewC4 [exPersistedRowC2] exNewRowC4 "B"
    rfl rfl (by decide)

/-- Characters with the same code point are equal. -/
theorem char_toNat_inj {a b : Char} (h : a.toNat = b.toNat) : a = b :=
  Char.ext (UInt32.toNat.inj h)

/-- Strings with the same character list are equal. -/
theorem string_toList_inj {a b : String} (h : a.toList = b.toList) : a = b := by
  cases a
  cases b
  exact congrArg String.mk (by simpa using h)

/-- The character-list order is irreflexive. -/
theorem charListLt_irrefl : ∀ l : List Char, charListLt l l = false := by
  intro l
  induction l with
  | nil => rfl
  | cons a t ih => simp [charListLt, ih]

/-- The character-list order is transitive. -/
theorem charListLt_trans : ∀ a b c : List Char,
    charListLt a b = true → charListLt b c = true → charListLt a c = true := by
  intro a
  induction a with
  | nil =>
      intro b c hab hbc
      cases b with
      | nil => cases hab
      | cons y ys =>
          cases c with
          | nil => cases hbc
          | cons z zs => rfl
  | cons x xs ih =>
      intro b c hab hbc
      cases b with
      | nil => cases hab
      | cons y ys =>
          cases c with
          | nil => cases hbc
          | cons z zs =>
              simp only [charListLt, Bool.or_eq_true, Bool.and_eq_true,
                decide_eq_true_eq] at hab hbc ⊢
              rcases hab with h1 | ⟨heq1, h2⟩ <;> rcases hbc with h3 | ⟨heq2, h4⟩
              · exact Or.inl (Nat.lt_trans h1 h3)
              · exact Or.inl (by rw [← heq2]; exact h1)
              · exact Or.inl (by rw [heq1]; exact h3)
              · exact Or.inr ⟨heq1.trans heq2, ih ys zs h2 h4⟩

/-- The character-list order is total: incomparable lists are equal. -/
theorem charListLt_connex : ∀ a b : List Char,
    charListLt a b = false → a ≠ b → charListLt b a = true := by
  intro a
  induction a with
  | nil =>
      intro b h hne
      cases b with
      | nil => exact absurd rfl hne
      | cons y ys => cases h
  | cons x xs ih =>
      intro b h hne
      cases b with
      | nil => rfl
      | cons y ys =>
          simp only [charListLt, Bool.or_eq_false_iff, Bool.and_eq_false_iff,
            decide_eq_false_iff_not] at h
          obtain ⟨h1, h2⟩ := h
          simp only [charListLt, Bool.or_eq_true, Bool.and_eq_true, decide_eq_true_eq]
          rcases Nat.lt_or_ge y.toNat x.toNat with hlt | hge
          · exact Or.inl hlt
          · have hxy : x = y := char_toNat_inj (Nat.le_antisymm hge (Nat.not_lt.mp h1))
            subst hxy
            rcases h2 with h2 | h2
            · exact absurd rfl h2
            · have hxs : xs ≠ ys := fun he => hne (by rw [he])
              exact Or.inr ⟨rfl, ih ys h2 hxs⟩

/-- The string order is irreflexive. -/
theorem strLt_irrefl (s : String) : strLt s s = false := charListLt_irrefl s.toList

/-- The string order is transitive. -/
theorem strLt_trans {a b c : String} (h1 : strLt a b = true) (h2 : strLt b c = true) :
    strLt a c = true := charListLt_trans a.toList b.toList c.toList h1 h2

/-- The string order is total. -/
theorem strLt_connex {a b : String} (h : strLt a b = false) (hne : a ≠ b) :
    strLt b a = true :=
  charListLt_connex a.toList b.toList h (fun he => hne (string_toList_inj he))

/-- The string order is asymmetric. -/
theorem strLt_asymm {a b : String} (h : strLt a b = true) : strLt b a = false := by
  cases hc : strLt b a with
  | false => rfl
  | true =>
      have := strLt_trans h hc
      rw [strLt_irrefl] at this
      cases this

/-- Equal skus and a strictly smaller date give a strictly smaller row
key. -/
theorem rowKeyLt_of_sku_eq {a b : Row} (hs : skuStr a = skuStr b)
    (hd : rowDate a < rowDate b) : rowKeyLt a b = true := by
  unfold rowKeyLt
  simp [hs, hd]

/-- Within one sku, a strictly smaller row key means a strictly smaller
date. -/
theorem rowDate_lt_of_rowKeyLt {a b : Row} (hs : skuStr a = skuStr b)
    (h : rowKeyLt a b = true) : rowDate a < rowDate b := by
  unfold rowKeyLt at h
  rw [hs] at h
  simpa [strLt_irrefl] using h

/-- The row-key order is transitive across a non-smaller middle element:
y below r and x not below r give y below x. -/
theorem rowKeyLt_lt_of_lt_of_not_lt {y r x : Row}
    (h1 : rowKeyLt y r = true) (h2 : rowKeyLt x r = false) : rowKeyLt y x = true := by
  unfold rowKeyLt at h1 h2 ⊢
  simp only [Bool.or_eq_true, Bool.and_eq_true, decide_eq_true_eq, beq_iff_eq] at h1 ⊢
  simp only [Bool.or_eq_false_iff, Bool.and_eq_false_iff,
    decide_eq_false_iff_not] at h2
  obtain ⟨hstr, hor⟩ := h2
  rcases h1 with hy | ⟨hse, hdlt⟩
  · by_cases hsx : skuStr x = skuStr r
    · exact Or.inl (by rw [hsx]; exact hy)
    · exact Or.inl (strLt_trans hy (strLt_connex hstr hsx))
  · by_cases hsx : skuStr x = skuStr r
    · rcases hor with hne | hnd
      · rw [hsx] at hne
        simp at hne
      · exact Or.inr ⟨hse.trans hsx.symm, by omega⟩
    · exact Or.inl (by rw [hse]; exact strLt_connex hstr hsx)

/-- The row-key order is asymmetric. -/
theorem rowKeyLt_asymm {a b : Row} (h : rowKeyLt a b = true) : rowKeyLt b a = false := by
  unfold rowKeyLt at h ⊢
  simp only [Bool.or_eq_true, Bool.and_eq_true, decide_eq_true_eq, beq_iff_eq] at h
  simp only [Bool.or_eq_false_iff, Bool.and_eq_false_iff, decide_eq_false_iff_not]
  rcases h with hs | ⟨hse, hd⟩
  · have hne : skuStr a ≠ skuStr b := by
      intro he
      rw [he, strLt_irrefl] at hs
      cases hs
    refine ⟨strLt_asymm hs, Or.inl ?_⟩
    exact beq_false_of_ne (fun he => hne he.symm)
  · refine ⟨by rw [hse, strLt_irrefl], Or.inr (by omega)⟩

/-- Insertion into a (sku, date)-sorted list keeps it sorted. -/
theorem sortedInsert_pairwise (r : Row) (L : List Row)
    (hL : L.Pairwise (fun a b => rowKeyLt b a = false)) :
    (sortedInsert r L).Pairwise (fun a b => rowKeyLt b a = false) := by
  induction L with
  | nil => simp [sortedInsert]
  | cons x xs ih =>
      rcases List.pairwise_cons.mp hL with ⟨hx, hxs⟩
      rw [sortedInsert]
      by_cases h : rowKeyLt x r = true
      · rw [if_pos h]
        refine List.pairwise_cons.mpr ⟨?_, ih hxs⟩
        intro y hy
        rcases (mem_sortedInsert r y xs).mp hy with rfl | hy'
        · exact rowKeyLt_asymm h
        · exact hx y hy'
      · rw [if_neg h]
        refine List.pairwise_cons.mpr ⟨?_, hL⟩
        intro y hy
        rcases List.mem_cons.mp hy with rfl | hy'
        · revert h
          cases rowKeyLt y r <;> simp
        · cases hy2 : rowKeyLt y r with
          | false => rfl
          | true =>
              have hxrf : rowKeyLt x r = false := by
                revert h
                cases rowKeyLt x r <;> simp
              have hcontra := rowKeyLt_lt_of_lt_of_not_lt hy2 hxrf
              rw [hx y hy'] at hcontra
              cases hcontra

/-- The stable sort of source line 362 produces a (sku, date)-sorted
list. -/
theorem sortValues_pairwise (l : List Row) :
    (sortValues l).Pairwise (fun a b => rowKeyLt b a = false) := by
  induction l with
  | nil => simp [sortValues]
  | cons r t ih => exact sortedInsert_pairwise r (sortValues t) ih

/-- Filtering one sku out of a sorted insertion: the inserted row lands by
date order within its own sku group (the stability argument: the relative
position of the other rows is untouched). -/
theorem filter_sortedInsert (k : String) (r : Row) (L : List Row)
    (hL : L.Pairwise (fun a b => rowKeyLt b a = false)) :
    (sortedInsert r L).filter (fun x => skuStr x == k)
      = if skuStr r == k then dateInsert r (L.filter (fun x => skuStr x == k))
        else L.filter (fun x => skuStr x == k) := by
  induction L with
  | nil =>
      by_cases hr : (skuStr r == k) = true
      · rw [if_pos hr]
        simp [sortedInsert, List.filter_cons, hr, dateInsert]
      · rw [if_neg hr]
        simp [sortedInsert, List.filter_cons, hr]
  | cons x xs ih =>
      rcases List.pairwise_cons.mp hL with ⟨hx, hxs⟩
      rw [sortedInsert]
      by_cases hxr : rowKeyLt x r = true
      · rw [if_pos hxr, List.filter_cons]
        by_cases hpx : (skuStr x == k) = true
        · rw [if_pos hpx, ih hxs]
          by_cases hpr : (skuStr r == k) = true
          · rw [if_pos hpr, if_pos hpr, List.filter_cons, if_pos hpx, dateInsert,
              if_pos ?hdate]
            case hdate =>
              have hsx : skuStr x = skuStr r :=
                (beq_iff_eq.mp hpx).trans (beq_iff_eq.mp hpr).symm
              exact rowDate_lt_of_rowKeyLt hsx hxr
          · rw [if_neg hpr, if_neg hpr, List.filter_cons, if_pos hpx]
        · rw [if_neg hpx, ih hxs]
          by_cases hpr : (skuStr r == k) = true
          · rw [if_pos hpr, if_pos hpr, List.filter_cons, if_neg hpx]
          · rw [if_neg hpr, if_neg hpr, List.filter_cons, if_neg hpx]
      · rw [if_neg hxr, List.filter_cons]
        by_cases hpr : (skuStr r == k) = true
        · rw [if_pos hpr, if_pos hpr]
          cases hflt : (x :: xs).filter (fun z => skuStr z == k) with
          | nil => rw [dateInsert]
          | cons y ys =>
              rw [dateInsert, if_neg ?hnd]
              case hnd =>
                intro hdate
                have hymem : y ∈ (x :: xs).filter (fun z => skuStr z == k) := by
                  rw [hflt]
                  exact List.mem_cons_self y ys
                obtain ⟨hyx, hpy⟩ := List.mem_filter.mp hymem
                have hsy : skuStr y = skuStr r :=
                  (beq_iff_eq.mp hpy).trans (beq_iff_eq.mp hpr).symm
                have hyr : rowKeyLt y r = true := rowKeyLt_of_sku_eq hsy hdate
                have hxrf : rowKeyLt x r = false := by
                  revert hxr
                  cases rowKeyLt x r <;> simp
                rcases List.mem_cons.mp hyx with rfl | hy'
                · rw [hxrf] at hyr
                  cases hyr
                · have hcontra := rowKeyLt_lt_of_lt_of_not_lt hyr hxrf
                  rw [hx y hy'] at hcontra
                  cases hcontra
        · rw [if_neg hpr, if_neg hpr]

/-- The sku group of the stable sort is the date-sorted group of the
original rows: this is exactly the stability of sort_values, restricted to
one sku. -/
theorem filter_sortValues (k : String) (l : List Row) :
    (sortValues l).filter (fun x => skuStr x == k)
      = dateSort (l.filter (fun x => skuStr x == k)) := by
  induction l with
  | nil => rfl
  | cons r t ih =>
      have hstep : sortValues (r :: t) = sortedInsert r (sortValues t) := rfl
      rw [hstep, filter_sortedInsert k r (sortValues t) (sortValues_pairwise t), ih,
        List.filter_cons]
      by_cases hpr : (skuStr r == k) = true
      · rw [if_pos hpr, if_pos hpr]
        rfl
      · rw [if_neg hpr, if_neg hpr]

/-- Membership in a date insertion. -/
theorem mem_dateInsert (r x : Row) (l : List Row) :
    x ∈ dateInsert r l ↔ x = r ∨ x ∈ l := by
  induction l with
  | nil => simp [dateInsert]
  | cons y t ih =>
      rw [dateInsert]
      by_cases h : rowDate y < rowDate r
      · rw [if_pos h]
        simp only [List.mem_cons, ih]
        try tauto
      · rw [if_neg h]
        simp only [List.mem_cons]
        try tauto

/-- A date insertion is never empty. -/
theorem dateInsert_ne_nil (r : Row) (l : List Row) : dateInsert r l ≠ [] := by
  cases l with
  | nil => simp [dateInsert]
  | cons y t =>
      rw [dateInsert]
      by_cases h : rowDate y < rowDate r
      · rw [if_pos h]
        simp
      · rw [if_neg h]
        simp

/-- Insertion into a date-sorted list keeps it sorted. -/
theorem dateInsert_pairwise (r : Row) (l : List Row)
    (hl : l.Pairwise (fun a b => rowDate a ≤ rowDate b)) :
    (dateInsert r l).Pairwise (fun a b => rowDate a ≤ rowDate b) := by
  induction l with
  | nil => simp [dateInsert]
  | cons x xs ih =>
      rcases List.pairwise_cons.mp hl with ⟨hx, hxs⟩
      rw [dateInsert]
      by_cases h : rowDate x < rowDate r
      · rw [if_pos h]
        refine List.pairwise_cons.mpr ⟨?_, ih hxs⟩
        intro y hy
        rcases (mem_dateInsert r y xs).mp hy with rfl | hy'
        · omega
        · exact hx y hy'
      · rw [if_neg h]
        refine List.pairwise_cons.mpr ⟨?_, hl⟩
        intro y hy
        rcases List.mem_cons.mp hy with rfl | hy'
        · omega
        · have := hx y hy'
          omega

/-- The date sort produces a date-sorted list. -/
theorem dateSort_pairwise (l : List Row) :
    (dateSort l).Pairwise (fun a b => rowDate a ≤ rowDate b) := by
  induction l with
  | nil => simp [dateSort]
  | cons r t ih => exact dateInsert_pairwise r (dateSort t) ih

/-- The last element of a date-sorted nonempty list has the greatest
date. -/
theorem getLast?_date_ge (x : Row) (xs : List Row)
    (hl : (x :: xs).Pairwise (fun a b => rowDate a ≤ rowDate b)) :
    ∃ m, (x :: xs).getLast? = some m ∧ rowDate x ≤ rowDate m := by
  induction xs generalizing x with
  | nil => exact ⟨x, rfl, Nat.le_refl _⟩
  | cons z zs ih =>
      rcases List.pairwise_cons.mp hl with ⟨hx, hzs⟩
      obtain ⟨m, hm, hzm⟩ := ih z hzs
      refine ⟨m, ?_, ?_⟩
      · rw [List.getLast?_cons_cons]
        exact hm
      · exact Nat.le_trans (hx z (List.mem_cons_self z zs)) hzm

/-- The last element after a date insertion: the inserted row when it is
strictly latest, the previous last otherwise (ties keep the previous last,
which sits behind the insertion point). -/
theorem getLast?_dateInsert (r : Row) (l : List Row)
    (hl : l.Pairwise (fun a b => rowDate a ≤ rowDate b)) :
    (dateInsert r l).getLast? =
      some (match l.getLast? with
            | none => r
            | some m => if rowDate m < rowDate r then r else m) := by
  induction l with
  | nil => rfl
  | cons x xs ih =>
      rcases List.pairwise_cons.mp hl with ⟨hx, hxs⟩
      rw [dateInsert]
      by_cases h : rowDate x < rowDate r
      · rw [if_pos h]
        cases hd : dateInsert r xs with
        | nil => exact absurd hd (dateInsert_ne_nil r xs)
        | cons y ys =>
            rw [List.getLast?_cons_cons, ← hd, ih hxs]
            cases xs with
            | nil => simp [h]
            | cons z zs => rw [List.getLast?_cons_cons]
      · rw [if_neg h]
        obtain ⟨m, hm, hxm⟩ := getLast?_date_ge x xs hl
        rw [List.getLast?_cons_cons, hm]
        dsimp only
        rw [if_neg (by omega)]

/-- Folding the keep-the-later-maximum step from a seeded row. -/
theorem foldl_pickLater_some (t : List Row) : ∀ r : Row,
    t.foldl pickLater (some r) =
      some (match lastMaxFold t with
            | none => r
            | some m => if rowDate m < rowDate r then r else m) := by
  induction t with
  | nil => intro r; rfl
  | cons x t' ih =>
      intro r
      rw [List.foldl_cons]
      have hpick : pickLater (some r) x = some (if rowDate r ≤ rowDate x then x else r) := by
        unfold pickLater
        dsimp only
        by_cases hc : rowDate r ≤ rowDate x
        · rw [if_pos hc, if_pos hc]
        · rw [if_neg hc, if_neg hc]
      rw [hpick, ih]
      have hR : lastMaxFold (x :: t') = t'.foldl pickLater (some x) := rfl
      rw [hR, ih x]
      cases hmf : lastMaxFold t' with
      | none =>
          dsimp only
          by_cases h1 : rowDate r ≤ rowDate x
          · rw [if_pos h1, if_neg (by omega)]
          · rw [if_neg h1, if_pos (by omega)]
      | some m =>
          dsimp only
          by_cases h1 : rowDate r ≤ rowDate x
          · rw [if_pos h1]
            by_cases h2 : rowDate m < rowDate x
            · rw [if_pos h2, if_neg (by omega)]
            · rw [if_neg h2, if_neg (by omega)]
          · rw [if_neg h1]
            by_cases h2 : rowDate m < rowDate x
            · rw [if_pos h2, if_pos (by omega), if_pos (by omega)]
            · rw [if_neg h2]

/-- The last row of the date sort is the spec's latest row: maximum date,
ties resolved in favour of the later (last-appended) row. -/
theorem getLast?_dateSort (g : List Row) : (dateSort g).getLast? = lastMaxFold g := by
  induction g with
  | nil => rfl
  | cons r t ih =>
      have h1 : dateSort (r :: t) = dateInsert r (dateSort t) := rfl
      rw [h1, getLast?_dateInsert r (dateSort t) (dateSort_pairwise t), ih]
      have h2 : lastMaxFold (r :: t) = t.foldl pickLater (some r) := rfl
      rw [h2, foldl_pickLater_some t r]

/-- When the last row of a group is non-NA in a column, the last non-NA
entry of that column is exactly the last row's entry. -/
theorem lastNonNA_of_getLast? (c : String) : ∀ (l : List Row) (m : Row),
    l.getLast? = some m → isNA (getCell m c) = false →
    lastNonNA (l.map (fun r => getCell r c)) = getCell m c := by
  intro l
  induction l with
  | nil =>
      intro m hm _
      cases hm
  | cons a l' ih =>
      intro m hm hna
      cases l' with
      | nil =>
          rw [List.getLast?_singleton] at hm
          cases hm
          unfold lastNonNA
          simp [hna]
      | cons b l'' =>
          rw [List.getLast?_cons_cons] at hm
          have hrec := ih m hm hna
          unfold lastNonNA at hrec ⊢
          rw [List.map_cons, List.filter_cons]
          cases hA : isNA (getCell a c) with
          | true =>
              simp only [hA, Bool.not_true]
              exact hrec
          | false =>
              simp only [hA, Bool.not_false, if_true]
              cases hf : (List.map (fun r => getCell r c) (b :: l'')).filter
                  (fun v => !isNA v) with
              | nil =>
                  rw [hf] at hrec
                  simp only [List.getLast?_nil, Option.getD_none] at hrec
                  rw [← hrec] at hna
                  cases hna
              | cons v vs =>
                  rw [hf] at hrec
                  rw [List.getLast?_cons_cons]
                  exact hrec

/-- Looking a present column up in a self-keyed association map. -/
theorem lookup_cols_map (g : String → Value) : ∀ (l : List String) (c : String),
    c ∈ l → List.lookup c (l.map (fun x => (x, g x))) = some (g c) := by
  intro l
  induction l with
  | nil =>
      intro c hc
      cases hc
  | cons d t ih =>
      intro c hc
      rw [List.map_cons, List.lookup_cons]
      by_cases h : c = d
      · subst h
        simp
      · rw [beq_false_of_ne h]
        rcases List.mem_cons.mp hc with rfl | h'
        · exact absurd rfl h
        · exact ih c h'

/-- The sku cell of a view row. -/
theorem latestRowFor_sku (df : DataFrame) (k : String) :
    getCell (latestRowFor df k) "sku" = Value.str k := rfl

/-- The non-sku cells of a view row: the last non-NA entry of the sku
group in that column. -/
theorem latestRowFor_cell (df : DataFrame) (k c : String)
    (hc : c ∈ df.cols) (hcs : c ≠ "sku") :
    getCell (latestRowFor df k) c
      = lastNonNA ((latestGroup df k).map (fun r => getCell r c)) := by
  have hmem : c ∈ df.cols.filter (fun x => x != "sku") := by
    rw [List.mem_filter]
    refine ⟨hc, ?_⟩
    simpa using hcs
  have h1 : getCell (latestRowFor df k) c
      = ((latestRowFor df k).lookup c).getD Value.nan := rfl
  rw [h1]
  unfold latestRowFor
  rw [List.lookup_cons, beq_false_of_ne hcs]
  dsimp only
  rw [lookup_cols_map
    (fun c' => lastNonNA ((latestGroup df k).map (fun r => getCell r c')))
    (df.cols.filter (fun x => x != "sku")) c hmem]
  rfl

/-- C8 (amended): the view fed to the Diff Engine is computed per column:
for each sku, each field of the view row is the last non-NA value of that
field over the sku's rows in (date, insertion-order) order — so when the
sku's maximal row (maximum date, last-appended on ties, as `specLatestRow`
states following the spec) has no NA field, the view row agrees with that
single row on every column, but when the maximal row has an NA field the
value of an EARLIER row leaks into the view (see the counterexample). -/
theorem latest_view_single_row_semantics
    (df : DataFrame) (k : String) (m : Row)
    (hm : specLatestRow df.rows k = some m)
    (hna : ∀ c ∈ df.cols, c ≠ "sku" → isNA (getCell m c) = false)
    (vr : Row) (hvr : vr ∈ (latest_historical_data df).rows)
    (hvrsku : getCell vr "sku" = Value.str k) :
    ∀ c ∈ df.cols, c ≠ "sku" → getCell vr c = getCell m c := by
  intro c hc hcs
  unfold latest_historical_data at hvr
  simp only [List.mem_map] at hvr
  obtain ⟨k', hk', rfl⟩ := hvr
  have hkk : k' = k := by
    have h := (latestRowFor_sku df k').symm.trans hvrsku
    injection h
  rw [hkk, latestRowFor_cell df k c hc hcs]
  have hgrp : latestGroup df k = dateSort (df.rows.filter (fun x => skuStr x == k)) :=
    filter_sortValues k df.rows
  have hlast : (latestGroup df k).getLast? = some m := by
    rw [hgrp, getLast?_dateSort]
    exact hm
  exact lastNonNA_of_getLast? c (latestGroup df k) m hlast (hna c hc hcs)

/-- C8 (counterexample to the claim as stated): for sku A with an earlier
row carrying amount "5" and a maximum-date row whose amount is NaN, the
view row served to the Diff Engine has the maximum date AND amount "5" —
the amount leaks from the earlier row, so the view is NOT the single
maximum-date row (whose amount is NaN). -/
theorem latest_view_field_leak_counterexample :
    latest_historical_data ⟨["sku", "date", "amount"], [exR1C8, exR2C8]⟩ =
      ⟨["sku", "date", "amount"],
       [[("sku", Value.str "A"), ("date", Value.dt 2024 1 2 0 0 0),
         ("amount", Value.str "5")]]⟩
    ∧ specLatestRow [exR1C8, exR2C8] "A" = some exR2C8
    ∧ rowDate exR1C8 < rowDate exR2C8
    ∧ getCell exR2C8 "amount" = Value.nan
    ∧ getCell exR1C8 "amount" = Value.str "5"
    ∧ Value.str "5" ≠ Value.nan :=
  ⟨rfl, rfl, by decide, rfl, rfl, by decide⟩

/-- Witness for the amended C8 on a one-row table: the view row equals the
(non-NA) maximal row on the amount column. -/
theorem latest_view_single_row_semantics_witness :
    getCell exViewRowC8 "amount" = getCell exR1C8 "amount" :=
  latest_view_single_row_semantics exDfC8w "A" exR1C8 rfl (by decide)
    exViewRowC8 (by decide) rfl "amount" (by decide) (by decide)

end Billa
